import Mathlib

/-!
# Verification of the `sdl` structured-logging adapter

A shallow embedding of `logger.go` and `request_logger.go`, together with the
parts of Go's `net/url` and of the logging engine that these files call.

Go strings are byte sequences, so they are modelled as lists of bytes.  The
two inputs the code reads from its environment, `debug.Stack()` and
`time.Now()`, are explicit arguments of the functions that read them.
-/

set_option maxRecDepth 100000

namespace Sdl

/-! ## Go strings -/

/-- A byte, the element of a Go string. -/
abbrev Byte := Fin 256

/-- A Go string: an immutable sequence of bytes. -/
abbrev Str := List Byte

/-- The byte of an ASCII character. -/
def ch (c : Char) : Byte := Fin.ofNat c.toNat

/-- The Go string written as an ASCII literal. -/
def str (s : String) : Str := s.toList.map ch

/-- Go's `strings.Cut` for a one-byte separator: the text before the first
separator, the text after it, and whether the separator was found. -/
def Cut (sep : Byte) : Str → Str × Str × Bool
  | [] => ([], [], false)
  | c :: s =>
    if c = sep then ([], s, true)
    else ((c :: (Cut sep s).1), (Cut sep s).2.1, (Cut sep s).2.2)

/-- Byte-wise lexicographic order of Go strings (`a <= b`). -/
def strLe : Str → Str → Bool
  | [], _ => true
  | _ :: _, [] => false
  | a :: s, b :: t => decide (a < b) || (a == b && strLe s t)

/-- Go's `slices.Sort` on strings. -/
def sortStrings (l : List Str) : List Str :=
  l.insertionSort (fun a b => strLe a b = true)

/-! ## `net/url`: escaping -/

/-- The escaping modes of `net/url`. -/
inductive encoding where
  | encodePath
  | encodePathSegment
  | encodeHost
  | encodeZone
  | encodeUserPassword
  | encodeQueryComponent
  | encodeFragment
  deriving DecidableEq, Repr

/-- ASCII letters and digits. -/
def isAlnum (c : Byte) : Bool :=
  (decide (ch 'a' ≤ c) && decide (c ≤ ch 'z')) ||
  (decide (ch 'A' ≤ c) && decide (c ≤ ch 'Z')) ||
  (decide (ch '0' ≤ c) && decide (c ≤ ch '9'))

/-- The bytes `! $ & ' ( ) * + , ; = : [ ] < > "` that a host may hold
unescaped. -/
def hostAllowed : Str :=
  [33, 36, 38, 39, 40, 41, 42, 43, 44, 59, 61, 58, 91, 93, 60, 62, 34]

/-- The reserved bytes `$ & + , / : ; = ? @`. -/
def reservedBytes : Str := str "$&+,/:;=?@"

/-- Go's `shouldEscape`: whether byte `c` must be percent-escaped in `mode`. -/
def shouldEscape (c : Byte) (mode : encoding) : Bool :=
  if isAlnum c then false
  else if (mode = .encodeHost ∨ mode = .encodeZone) ∧ c ∈ hostAllowed then false
  else if c ∈ str "-_.~" then false
  else if c ∈ reservedBytes ∧ mode = .encodePath then c == ch '?'
  else if c ∈ reservedBytes ∧ mode = .encodePathSegment then
    c == ch '/' || c == ch ';' || c == ch ',' || c == ch '?'
  else if c ∈ reservedBytes ∧ mode = .encodeUserPassword then
    c == ch '@' || c == ch '/' || c == ch '?' || c == ch ':'
  else if c ∈ reservedBytes ∧ mode = .encodeQueryComponent then true
  else if c ∈ reservedBytes ∧ mode = .encodeFragment then false
  else if mode = .encodeFragment ∧ c ∈ str "!()*" then false
  else true

/-- Go's `ishex`. -/
def ishex (c : Byte) : Bool :=
  (decide (ch '0' ≤ c) && decide (c ≤ ch '9')) ||
  (decide (ch 'a' ≤ c) && decide (c ≤ ch 'f')) ||
  (decide (ch 'A' ≤ c) && decide (c ≤ ch 'F'))

/-- Go's `unhex`: the value of a hexadecimal digit. -/
def unhex (c : Byte) : Byte :=
  if ch '0' ≤ c ∧ c ≤ ch '9' then c - ch '0'
  else if ch 'a' ≤ c ∧ c ≤ ch 'f' then c - ch 'a' + 10
  else if ch 'A' ≤ c ∧ c ≤ ch 'F' then c - ch 'A' + 10
  else 0

/-- The digit table `upperhex` of `net/url`, indexed. -/
def upperhex (n : Nat) : Byte := (str "0123456789ABCDEF").getD n 0

/-- The byte `unhex(a)<<4 | unhex(b)`. -/
def hexByte (a b : Byte) : Byte := Fin.ofNat ((unhex a).val * 16 % 256 ||| (unhex b).val)

/-- Go's `escape`: percent-escape the bytes of `s` that `mode` requires; in a
query component a space becomes `+`. -/
def escape : Str → encoding → Str
  | [], _ => []
  | c :: s, mode =>
    if shouldEscape c mode then
      if c = ch ' ' ∧ mode = .encodeQueryComponent then ch '+' :: escape s mode
      else ch '%' :: upperhex (c.val / 16) :: upperhex (c.val % 16) :: escape s mode
    else c :: escape s mode

/-- The first loop of Go's `unescape`: whether every `%` starts a well-formed
escape that `mode` admits (and, in a host, whether every byte is allowed). -/
def unescapeValid : Str → encoding → Bool
  | [], _ => true
  | c :: rest, mode =>
    if c = ch '%' then
      match rest with
      | a :: b :: rest2 =>
        if !ishex a || !ishex b then false
        else if mode = .encodeHost ∧ (unhex a).val < 8 ∧ (c :: a :: [b]) ≠ str "%25" then false
        else if mode = .encodeZone ∧ (c :: a :: [b]) ≠ str "%25" ∧ hexByte a b ≠ ch ' ' ∧
            shouldEscape (hexByte a b) .encodeHost = true then false
        else unescapeValid rest2 mode
      | _ => false
    else if (mode = .encodeHost ∨ mode = .encodeZone) ∧ c.val < 128 ∧
        shouldEscape c .encodeHost = true then false
    else unescapeValid rest mode

/-- The second loop of Go's `unescape`: decode `%XX`, and `+` as a space in a
query component. -/
def unescapeDecode : Str → encoding → Str
  | [], _ => []
  | c :: rest, mode =>
    if c = ch '%' then
      match rest with
      | a :: b :: rest2 => hexByte a b :: unescapeDecode rest2 mode
      | _ => []
    else if c = ch '+' then
      (if mode = .encodeQueryComponent then ch ' ' else ch '+') :: unescapeDecode rest mode
    else c :: unescapeDecode rest mode

/-- Go's `unescape`; `none` stands for the error result. -/
def unescape (s : Str) (mode : encoding) : Option Str :=
  if unescapeValid s mode then some (unescapeDecode s mode) else none

/-- Go's `url.QueryEscape`. -/
def QueryEscape (s : Str) : Str := escape s .encodeQueryComponent

/-- Go's `url.QueryUnescape`. -/
def QueryUnescape (s : Str) : Option Str := unescape s .encodeQueryComponent

/-- Go's `validEncoded`. -/
def validEncoded (s : Str) (mode : encoding) : Bool :=
  s.all (fun c =>
    c ∈ ([33, 36, 38, 39, 40, 41, 42, 43, 44, 59, 61, 58, 64] : Str) ||
    c == ch '[' || c == ch ']' || c == ch '%' || !shouldEscape c mode)

/-- The bytes that separate and structure a query: `&`, `=`, `;`, `#`, `%`
and `+`. -/
def queryDelims : Str := str "&=;#%+"

/-! ## Go maps -/

/-- A Go `map[string]V`, kept as an association list; the map it denotes is
the one that `GoMap.get` reads (the first entry of a key). -/
abbrev GoMap (V : Type) := List (Str × V)

/-- The map read `v, ok := m[k]`. -/
def GoMap.get {V : Type} (m : GoMap V) (k : Str) : Option V := List.lookup k m

/-- The map write `m[k] = v`: replaces the entry of `k`, or adds one. -/
def GoMap.set {V : Type} : GoMap V → Str → V → GoMap V
  | [], k, v => [(k, v)]
  | e :: m, k, v => if e.1 = k then (k, v) :: m else e :: GoMap.set m k v

/-- The builtin `delete(m, k)`. -/
def GoMap.delete {V : Type} (m : GoMap V) (k : Str) : GoMap V :=
  m.filter (fun e => decide (e.1 ≠ k))

/-- The keys of the map, each once. -/
def GoMap.keys {V : Type} (m : GoMap V) : List Str := (m.map Prod.fst).dedup

/-- The entries that `for k, v := range m` visits, each key once. -/
def GoMap.range {V : Type} (m : GoMap V) : List (Str × V) :=
  (GoMap.keys m).filterMap (fun k => (GoMap.get m k).map (fun v => (k, v)))

/-! ## `net/url`: query values -/

/-- Go's `url.Values`, a `map[string][]string`. -/
abbrev Values := GoMap (List Str)

/-- The slice read `v[key]`: the values of `key`, empty when there are none. -/
def Values.index (v : Values) (key : Str) : List Str := (GoMap.get v key).getD []

/-- Go's `Values.Has`. -/
def Values.Has (v : Values) (key : Str) : Bool := (GoMap.get v key).isSome

/-- Go's `Values.Del`. -/
def Values.Del (v : Values) (key : Str) : Values := GoMap.delete v key

/-- The body of the loop of Go's `parseQuery` for one `&`-separated piece:
a piece with a semicolon, an empty piece, and a piece whose key or value does
not unescape are skipped; otherwise the value is appended to the key's values. -/
def parseQueryStep (m : Values) (piece : Str) : Values :=
  if ch ';' ∈ piece then m
  else if piece = [] then m
  else
    match QueryUnescape (Cut (ch '=') piece).1 with
    | none => m
    | some key =>
      match QueryUnescape (Cut (ch '=') piece).2.1 with
      | none => m
      | some value => GoMap.set m key (Values.index m key ++ [value])

/-- Go's `parseQuery` (Go 1.17 and later, where a semicolon is no separator):
the loop `for query != ""` cuts the query at each `&` and handles the pieces
from left to right. -/
def parseQuery (m : Values) (query : Str) : Values :=
  (query.splitOn (ch '&')).foldl parseQueryStep m

/-- The `key=value` pairs that `Values.Encode` writes, in its order: keys
sorted, the values of one key in their stored order. -/
def Values.pairs (v : Values) : List (Str × Str) :=
  (sortStrings (GoMap.keys v)).flatMap (fun k => (Values.index v k).map (fun x => (k, x)))

/-- Go's `Values.Encode`: the escaped pairs joined by `&`. -/
def Values.Encode (v : Values) : Str :=
  [ch '&'].intercalate
    ((Values.pairs v).map (fun p => QueryEscape p.1 ++ ch '=' :: QueryEscape p.2))

/-- The property that no key of a query map is stored with an empty list of
values. -/
def noEmptyValues (m : Values) : Prop := ∀ k, GoMap.get m k ≠ some []

/-! ## `net/url`: URLs -/

/-- Go's `url.Userinfo`. -/
structure Userinfo where
  username : Str := []
  password : Str := []
  passwordSet : Bool := false

/-- Go's `Userinfo.String`. -/
def Userinfo.String (u : Userinfo) : Str :=
  escape u.username .encodeUserPassword ++
    (if u.passwordSet then ch ':' :: escape u.password .encodeUserPassword else [])

/-- Go's `url.URL`. -/
structure URL where
  Scheme : Str := []
  Opaque : Str := []
  User : Option Userinfo := none
  Host : Str := []
  Path : Str := []
  RawPath : Str := []
  OmitHost : Bool := false
  ForceQuery : Bool := false
  RawQuery : Str := []
  Fragment : Str := []
  RawFragment : Str := []

/-- Go's `URL.EscapedPath`. -/
def URL.EscapedPath (u : URL) : Str :=
  if u.RawPath ≠ [] ∧ validEncoded u.RawPath .encodePath = true ∧
      unescape u.RawPath .encodePath = some u.Path then u.RawPath
  else if u.Path = str "*" then str "*"
  else escape u.Path .encodePath

/-- Go's `URL.EscapedFragment`. -/
def URL.EscapedFragment (u : URL) : Str :=
  if u.RawFragment ≠ [] ∧ validEncoded u.RawFragment .encodeFragment = true ∧
      unescape u.RawFragment .encodeFragment = some u.Fragment then u.RawFragment
  else escape u.Fragment .encodeFragment

/-- What `URL.String` writes before the query: scheme, opaque part or
authority, and path. -/
def URL.head (u : URL) : Str :=
  let scheme : Str := if u.Scheme ≠ [] then u.Scheme ++ [ch ':'] else []
  if u.Opaque ≠ [] then scheme ++ u.Opaque
  else
    let authority : Str :=
      if u.Scheme ≠ [] ∨ u.Host ≠ [] ∨ u.User.isSome = true then
        if u.OmitHost = true ∧ u.Host = [] ∧ u.User.isSome = false then []
        else
          (if u.Host ≠ [] ∨ u.Path ≠ [] ∨ u.User.isSome = true then str "//" else []) ++
          (match u.User with
            | some ui => ui.String ++ [ch '@']
            | none => []) ++
          (if u.Host ≠ [] then escape u.Host .encodeHost else [])
      else []
    let path := u.EscapedPath
    let slash : Str :=
      if path ≠ [] ∧ path.head? ≠ some (ch '/') ∧ u.Host ≠ [] then [ch '/'] else []
    let buf := scheme ++ authority ++ slash
    let dot : Str :=
      if buf = [] ∧ ch ':' ∈ (Cut (ch '/') path).1 then str "./" else []
    buf ++ dot ++ path

/-- Go's `URL.String`. -/
def URL.String (u : URL) : Str :=
  u.head ++
    (if u.ForceQuery = true ∨ u.RawQuery ≠ [] then ch '?' :: u.RawQuery else []) ++
    (if u.Fragment ≠ [] then ch '#' :: u.EscapedFragment else [])

/-- Go's `URL.Query`: the parsed `RawQuery`, malformed pairs dropped. -/
def URL.Query (u : URL) : Values := parseQuery [] u.RawQuery

/-- The raw query of a URL string, as Go's `url.Parse` takes it: the fragment
from the first `#` on is cut off, and the query is what follows the first `?`
of the rest. -/
def rawQueryOf (s : Str) : Str := (Cut (ch '?') (Cut (ch '#') s).1).2.1

/-- The scheme and the opaque part of a URL, which `URL.String` writes as they
are, hold neither `?` nor `#`; `url.Parse` produces only such URLs. -/
def URL.plainHead (u : URL) : Prop :=
  ∀ d, d ∈ str "?#" → d ∉ u.Scheme ∧ d ∉ u.Opaque

/-! ## `request_logger.go`: stripping a query parameter -/

/-- The function `stripQueryParam`.  It writes `u.RawQuery` through the
pointer, so the model returns the URL after the call next to the string. -/
def stripQueryParam (u : URL) (stripKey : Str) : Str × URL :=
  let q := u.Query
  let q := Values.Del q stripKey
  let u := { u with RawQuery := Values.Encode q }
  (u.String, u)

/-! ## Values, fields and errors -/

/-- A Go value of type `interface{}` as the loggers use it: a string, an
integer, a `time.Time` instant, a nested field map, or any other value. -/
inductive Value where
  | string (s : Str)
  | int (n : Int)
  | time (t : Nat)
  | fields (m : List (Str × Value))
  | other (id : Nat)

/-- The engine's `logrus.Fields`, a `map[string]interface{}`. -/
abbrev Fields := GoMap Value

/-- The type `Payload` of `logger.go`, a `map[string]interface{}`. -/
abbrev Payload := GoMap Value

/-- A non-nil Go `error`, known by the text its `Error()` method returns. -/
structure GoError where
  description : Str

/-- How `fmt` prints an `error` argument with `%s`: its description, or the
text `%!s(<nil>)` for a nil error. -/
def fmtS (err : Option GoError) : Str :=
  match err with
  | some e => e.description
  | none => str "%!s(<nil>)"

/-- How `fmt.Sprint` prints a single `error` argument: its description, or
`<nil>` for a nil error. -/
def Sprint (err : Option GoError) : Str :=
  match err with
  | some e => e.description
  | none => str "<nil>"

/-! ## The logging engine -/

/-- The severities of the engine, most severe first. -/
inductive Level where
  | PanicLevel
  | FatalLevel
  | ErrorLevel
  | WarnLevel
  | InfoLevel
  | DebugLevel
  | TraceLevel
  deriving DecidableEq, Repr

/-- The number of a level: `PanicLevel` is 0, `TraceLevel` is 6. -/
def Level.toNat : Level → Nat
  | .PanicLevel => 0
  | .FatalLevel => 1
  | .ErrorLevel => 2
  | .WarnLevel => 3
  | .InfoLevel => 4
  | .DebugLevel => 5
  | .TraceLevel => 6

/-- Go's `strings.ToLower`: an all-ASCII string is lowered byte by byte; any
other string goes through the Unicode mapping, which is the argument
`unicodeLower`. -/
def ToLower (unicodeLower : Str → Str) (s : Str) : Str :=
  if s.all (fun c => decide (c.val < 128)) then
    s.map (fun c => if ch 'A' ≤ c ∧ c ≤ ch 'Z' then c + 32 else c)
  else unicodeLower s

/-- The engine's `ParseLevel`: the lower-cased string names a level, or the
result is an error that quotes the rejected string. -/
def ParseLevel (unicodeLower : Str → Str) (lvl : Str) : Except Str Level :=
  let l := ToLower unicodeLower lvl
  if l = str "panic" then .ok .PanicLevel
  else if l = str "fatal" then .ok .FatalLevel
  else if l = str "error" then .ok .ErrorLevel
  else if l = str "warn" ∨ l = str "warning" then .ok .WarnLevel
  else if l = str "info" then .ok .InfoLevel
  else if l = str "debug" then .ok .DebugLevel
  else if l = str "trace" then .ok .TraceLevel
  else .error lvl

/-- An `io.Writer` that records are written to. -/
inductive Sink where
  | stderr
  | writer (id : Nat)
  deriving DecidableEq, Repr

/-- The formatter of the engine: its default text formatter, or the JSON
formatter with the three key names of its field map and a timestamp layout. -/
inductive Formatter where
  | text
  | json (FieldKeyMsg FieldKeyTime FieldKeyLevel TimestampFormat : Str)
  deriving DecidableEq, Repr

/-- The engine's `logrus.Logger`: sink, formatter and minimum level. -/
structure LogrusLogger where
  Out : Sink
  Formatter : Formatter
  Level : Level

/-- The engine's `logrus.New()`. -/
def logrusNew : LogrusLogger :=
  { Out := .stderr, Formatter := .text, Level := .InfoLevel }

/-- The engine's `logrus.Entry`: a logger and the fields gathered so far. -/
structure Entry where
  Logger : LogrusLogger
  Data : Fields

/-- The engine's `logrus.NewEntry`. -/
def NewEntry (logger : LogrusLogger) : Entry := { Logger := logger, Data := [] }

/-- Writing every entry of `fields` into `data`, as the loop
`for k, v := range fields { data[k] = v }` does. -/
def overlay (data fields : Fields) : Fields :=
  (GoMap.range fields).foldl (fun d e => GoMap.set d e.1 e.2) data

/-- Modelled from the spec: the engine's "with fields" composition primitive
(`Entry.WithFields`), which returns a new entry scoped with the merged fields:
the entry's own fields overlaid with the given ones. -/
def Entry.WithFields (entry : Entry) (fields : Fields) : Entry :=
  { Logger := entry.Logger, Data := overlay (overlay [] entry.Data) fields }

/-- What a logging method hands to the engine: the entry it starts from, the
fields it passes to `WithFields`, and the severity and message of the final
call. -/
structure EngineCall where
  entry : Entry
  fields : Fields
  level : Level
  message : Str

/-- The struct `serviceContext`. -/
structure serviceContext where
  serviceName : Str
  version : Str

/-- The struct `Logger`: the embedded engine entry and the service context. -/
structure Logger where
  Entry : Entry
  serviceContext : serviceContext

/-- The struct `Config`; a nil `WriteLocation` is `none`. -/
structure Config where
  LoggingLevel : Str
  ServiceName : Str
  Version : Str
  WriteLocation : Option Sink

/-- The key names and timestamp layout `New` gives the JSON formatter. -/
def stackdriverFormatter : Formatter :=
  .json (str "message") (str "timestamp") (str "severity")
    (str "2006-01-02T15:04:05.999999999Z07:00")

/-- The function `New`: the error of `ParseLevel` is returned as it is, and
otherwise the logger carries the parsed level and the service context. -/
def New (unicodeLower : Str → Str) (conf : Config) : Except Str Logger :=
  let logrusLogger := logrusNew
  let logrusLogger : LogrusLogger :=
    match conf.WriteLocation with
    | some w => { logrusLogger with Out := w }
    | none => logrusLogger
  let logrusLogger : LogrusLogger := { logrusLogger with Formatter := stackdriverFormatter }
  match ParseLevel unicodeLower conf.LoggingLevel with
  | .error err => .error err
  | .ok logLvl =>
    let logrusLogger : LogrusLogger := { logrusLogger with Level := logLvl }
    .ok { Entry := NewEntry logrusLogger,
          serviceContext := { serviceName := conf.ServiceName, version := conf.Version } }

/-- The method `Logger.Error`; `stack` is what `debug.Stack()` returns and
`now` what `time.Now()` returns at the call. -/
def Logger.Error (l : Logger) (err : Option GoError) (stack : Str) (now : Nat) : EngineCall :=
  let stackTrace := fmtS err ++ str "\n" ++ stack
  let errorFields : Fields :=
    [ (str "serviceContext", .fields
        [ (str "service", .string l.serviceContext.serviceName),
          (str "version", .string l.serviceContext.version) ]),
      (str "eventTime", .time now),
      (str "stack_trace", .string stackTrace) ]
  { entry := l.Entry, fields := errorFields, level := .ErrorLevel, message := Sprint err }

/-- The function `convertToLogrusFields`. -/
def convertToLogrusFields (jp : Payload) : Fields :=
  (GoMap.range jp).foldl (fun lf e => GoMap.set lf e.1 e.2) []

/-- The method `Logger.JSONPayload`. -/
def Logger.JSONPayload (l : Logger) (jp : Payload) : Sdl.Entry :=
  l.Entry.WithFields (convertToLogrusFields jp)

/-! ## `request_logger.go` -/

/-- The fields of Go's `http.Request` that the request logger reads; a nil
`URL` pointer is `none`. -/
structure Request where
  Method : Str
  URL : Option URL
  Proto : Str
  Header : GoMap (List Str)
  RemoteAddr : Str

/-- Go's `Request.UserAgent`: the first `User-Agent` header value, or the
empty string. -/
def Request.UserAgent (r : Request) : Str :=
  ((GoMap.get r.Header (str "User-Agent")).getD []).headD []

/-- The struct `HTTPRequestFields`; a nil `Request` pointer is `none`. -/
structure HTTPRequestFields where
  Request : Option Request
  Status : Int

/-- The struct `RequestLogger`. -/
structure RequestLogger where
  method : Str
  url : Str
  userAgent : Str
  remoteIP : Str
  status : Int
  protocol : Str
  logger : Logger

/-- The three ways a Go call with an `error` result ends: it returns a value
and a nil error, it returns an error, or it panics. -/
inductive Outcome (α : Type) where
  | ok (a : α)
  | error (e : GoError)
  | panic

/-- The method `Logger.NewRequestLogger`.  A nil request is an error; a nil
`URL` is dereferenced by `stripQueryParam`, a run-time panic.  On success the
model returns the logger together with the caller's `HTTPRequestFields` after
the call, whose URL `stripQueryParam` has written to. -/
def Logger.NewRequestLogger (l : Logger) (rf : HTTPRequestFields) :
    Outcome (RequestLogger × HTTPRequestFields) :=
  match rf.Request with
  | none => .error { description := str "cannot log nil request" }
  | some req =>
    match req.URL with
    | none => .panic
    | some u =>
      let stripped := stripQueryParam u (str "key")
      .ok ({ method := req.Method,
             url := stripped.1,
             userAgent := req.UserAgent,
             remoteIP := req.RemoteAddr,
             status := rf.Status,
             protocol := req.Proto,
             logger := l },
           { rf with Request := some { req with URL := some stripped.2 } })

/-- The method `RequestLogger.InfoJSONPayload`. -/
def RequestLogger.InfoJSONPayload (rl : RequestLogger) (jp : Payload) : EngineCall :=
  let logFields : Fields :=
    [ (str "httpRequest", .fields
        [ (str "requestMethod", .string rl.method),
          (str "requestUrl", .string rl.url),
          (str "userAgent", .string rl.userAgent),
          (str "remoteIp", .string rl.remoteIP),
          (str "status", .int rl.status),
          (str "protocol", .string rl.protocol) ]) ]
  let logFields := overlay logFields (convertToLogrusFields jp)
  { entry := rl.logger.Entry, fields := logFields, level := .InfoLevel, message := str "" }

/-- The method `RequestLogger.Error`; `stack` is what `debug.Stack()` returns
and `now` what `time.Now()` returns at the call. -/
def RequestLogger.Error (rl : RequestLogger) (err : Option GoError) (stack : Str) (now : Nat) :
    EngineCall :=
  let stackTrace := fmtS err ++ str "\n" ++ stack
  let errorFields : Fields :=
    [ (str "serviceContext", .fields
        [ (str "service", .string rl.logger.serviceContext.serviceName),
          (str "version", .string rl.logger.serviceContext.version) ]),
      (str "context", .fields
        [ (str "httpRequest", .fields
            [ (str "method", .string rl.method),
              (str "url", .string rl.url),
              (str "userAgent", .string rl.userAgent),
              (str "responseStatusCode", .int rl.status),
              (str "remoteIp", .string rl.remoteIP) ]) ]),
      (str "eventTime", .time now),
      (str "stack_trace", .string stackTrace),
      (str "@type", .string (str
        "type.googleapis.com/google.devtools.clouderrorreporting.v1beta1.ReportedErrorEvent")) ]
  { entry := rl.logger.Entry, fields := errorFields, level := .ErrorLevel, message := Sprint err }

/-! ## Example inputs -/

/-- The URL `https://x/y?key=secret&a=1`. -/
def exampleURL : URL :=
  { Scheme := str "https", Host := str "x", Path := str "/y", RawQuery := str "key=secret&a=1" }

/-- The URL `https://x/y?b=2&a=1`, whose query has no `key` and is not sorted. -/
def unsortedURL : URL :=
  { Scheme := str "https", Host := str "x", Path := str "/y", RawQuery := str "b=2&a=1" }

/-- A URL value with the opaque part `joe@x.com?key=secret` and the raw query
`a=1`; its text is `mailto:joe@x.com?key=secret?a=1`. -/
def opaqueURL : URL :=
  { Scheme := str "mailto", Opaque := str "joe@x.com?key=secret", RawQuery := str "a=1" }

/-- The URL `https://x/y?a=1;b=2&c=%zz&d=4&key=s`, two of whose pairs
`URL.Query` rejects. -/
def malformedQueryURL : URL :=
  { Scheme := str "https", Host := str "x", Path := str "/y",
    RawQuery := str "a=1;b=2&c=%zz&d=4&key=s" }

/-- The URL `https://x/y?a=1&b=2`, whose query has no `key` and is sorted. -/
def sortedURL : URL :=
  { Scheme := str "https", Host := str "x", Path := str "/y", RawQuery := str "a=1&b=2" }

/-- The configuration of the test in `logger_test.go`. -/
def exampleConfig : Config :=
  { LoggingLevel := str "INFO", ServiceName := str "test", Version := str "1.0.0",
    WriteLocation := some (.writer 0) }

/-- The logger `New` returns for `exampleConfig`. -/
def exampleLogger : Logger :=
  { Entry := NewEntry { Out := .writer 0, Formatter := stackdriverFormatter, Level := .InfoLevel },
    serviceContext := { serviceName := str "test", version := str "1.0.0" } }

/-- The relative URL `/a?key=1&b=2`. -/
def exampleRequestURL : URL := { Path := str "/a", RawQuery := str "key=1&b=2" }

/-- A `GET` request for `/a?key=1&b=2`. -/
def exampleRequest : Request :=
  { Method := str "GET",
    URL := some exampleRequestURL,
    Proto := str "HTTP/1.1",
    Header := [(str "User-Agent", [str "curl"])],
    RemoteAddr := str "10.0.0.1:4711" }

/-- A request value whose `URL` pointer is nil, such as `&http.Request\x7b\x7d`
with only the method set. -/
def requestWithoutURL : Request :=
  { Method := str "GET", URL := none, Proto := str "HTTP/1.1", Header := [],
    RemoteAddr := str "10.0.0.1:4711" }

/-- The payload with the single entry `x: 1`. -/
def examplePayload : Payload := [(str "x", .int 1)]

/-! ## Facts about Go maps -/

theorem GoMap.get_nil {V : Type} (k : Str) : GoMap.get ([] : GoMap V) k = none := rfl

theorem GoMap.get_cons {V : Type} (e : Str × V) (m : GoMap V) (k : Str) :
    GoMap.get (e :: m) k = if k = e.1 then some e.2 else GoMap.get m k := by
  obtain ⟨a, b⟩ := e
  by_cases h : k = a
  · subst h
    simp [GoMap.get, List.lookup]
  · have hb : (k == a) = false := by simpa using h
    simp [GoMap.get, List.lookup, hb, h]

theorem GoMap.get_set {V : Type} (m : GoMap V) (k : Str) (v : V) (k2 : Str) :
    GoMap.get (GoMap.set m k v) k2 = if k2 = k then some v else GoMap.get m k2 := by
  induction m with
  | nil => simp [GoMap.set, GoMap.get_cons, GoMap.get_nil]
  | cons e m ih =>
    unfold GoMap.set
    by_cases h : e.1 = k <;> by_cases h2 : k2 = k <;> by_cases h3 : k2 = e.1 <;>
      simp_all [GoMap.get_cons]

theorem GoMap.get_eq_none {V : Type} (m : GoMap V) (k : Str) :
    GoMap.get m k = none ↔ k ∉ m.map Prod.fst := by
  induction m with
  | nil => simp [GoMap.get_nil]
  | cons e m ih =>
    rw [GoMap.get_cons]
    by_cases h : k = e.1
    · simp [h]
    · simp only [h, if_false, ih, List.map_cons, List.mem_cons, false_or]

theorem GoMap.get_of_mem {V : Type} (m : GoMap V) (k : Str) (v : V)
    (hn : (m.map Prod.fst).Nodup) (hm : (k, v) ∈ m) : GoMap.get m k = some v := by
  induction m with
  | nil => simp at hm
  | cons e m ih =>
    rw [GoMap.get_cons]
    rw [List.map_cons, List.nodup_cons] at hn
    rcases List.mem_cons.1 hm with h | h
    · subst h; simp
    · have hk : k ∈ m.map Prod.fst := List.mem_map.2 ⟨(k, v), h, rfl⟩
      have : k ≠ e.1 := fun hh => hn.1 (hh ▸ hk)
      simp [this, ih hn.2 h]

theorem GoMap.get_delete {V : Type} (m : GoMap V) (k k2 : Str) :
    GoMap.get (GoMap.delete m k) k2 = if k2 = k then none else GoMap.get m k2 := by
  induction m with
  | nil => simp [GoMap.delete, GoMap.get_nil]
  | cons e m ih =>
    have hd : GoMap.delete (e :: m) k =
        if e.1 = k then GoMap.delete m k else e :: GoMap.delete m k := by
      unfold GoMap.delete
      by_cases h : e.1 = k <;> simp [List.filter_cons, h]
    rw [hd]
    by_cases h : e.1 = k <;> by_cases h2 : k2 = k <;> by_cases h3 : k2 = e.1 <;>
      simp_all [GoMap.get_cons]

theorem GoMap.delete_of_get_none {V : Type} (m : GoMap V) (k : Str)
    (h : GoMap.get m k = none) : GoMap.delete m k = m := by
  rw [GoMap.get_eq_none] at h
  unfold GoMap.delete
  rw [List.filter_eq_self]
  intro e he
  have : e.1 ≠ k := fun hh => h (hh ▸ List.mem_map.2 ⟨e, he, rfl⟩)
  simpa using this

theorem GoMap.keys_nodup {V : Type} (m : GoMap V) : (GoMap.keys m).Nodup :=
  List.nodup_dedup _

theorem GoMap.mem_keys {V : Type} (m : GoMap V) (k : Str) :
    k ∈ GoMap.keys m ↔ GoMap.get m k ≠ none := by
  unfold GoMap.keys
  rw [List.mem_dedup, Ne, GoMap.get_eq_none, not_not]

theorem GoMap.range_eq_map {V : Type} (m : GoMap V) :
    (GoMap.range m).map Prod.fst = GoMap.keys m := by
  unfold GoMap.range
  have key : ∀ l : List Str, (∀ k ∈ l, GoMap.get m k ≠ none) →
      (l.filterMap (fun k => (GoMap.get m k).map (fun v => (k, v)))).map Prod.fst = l := by
    intro l
    induction l with
    | nil => intro _; rfl
    | cons a l ih =>
      intro h
      have ha := h a (List.mem_cons_self _ _)
      obtain ⟨v, hv⟩ := Option.ne_none_iff_exists'.1 ha
      rw [List.filterMap_cons, hv]
      simp only [Option.map_some', List.map_cons]
      rw [ih (fun k hk => h k (List.mem_cons_of_mem _ hk))]
  exact key _ (fun k hk => (GoMap.mem_keys m k).1 hk)

theorem GoMap.get_range {V : Type} (m : GoMap V) (k : Str) :
    GoMap.get (GoMap.range m) k = GoMap.get m k := by
  have hn : ((GoMap.range m).map Prod.fst).Nodup := by
    rw [GoMap.range_eq_map]; exact GoMap.keys_nodup m
  cases hg : GoMap.get m k with
  | none =>
    rw [GoMap.get_eq_none, GoMap.range_eq_map, GoMap.mem_keys, hg]
    simp
  | some v =>
    apply GoMap.get_of_mem _ _ _ hn
    unfold GoMap.range
    rw [List.mem_filterMap]
    refine ⟨k, ?_, by simp [hg]⟩
    rw [GoMap.mem_keys, hg]; simp

theorem GoMap.get_foldl_set {V : Type} (l : List (Str × V)) (d : GoMap V) (k : Str)
    (hn : (l.map Prod.fst).Nodup) :
    GoMap.get (l.foldl (fun d e => GoMap.set d e.1 e.2) d) k =
      (GoMap.get l k).or (GoMap.get d k) := by
  induction l generalizing d with
  | nil => simp [GoMap.get_nil]
  | cons e l ih =>
    rw [List.map_cons, List.nodup_cons] at hn
    rw [List.foldl_cons, ih _ hn.2, GoMap.get_cons, GoMap.get_set]
    by_cases h : k = e.1
    · have hl : GoMap.get l k = none := by
        rw [GoMap.get_eq_none, h]; exact hn.1
      rw [hl, if_pos h, if_pos h]
      rfl
    · rw [if_neg h, if_neg h]

theorem get_overlay (data fields : Fields) (k : Str) :
    GoMap.get (overlay data fields) k = (GoMap.get fields k).or (GoMap.get data k) := by
  unfold overlay
  rw [GoMap.get_foldl_set _ _ _ (by rw [GoMap.range_eq_map]; exact GoMap.keys_nodup _),
    GoMap.get_range]

theorem get_convertToLogrusFields (jp : Payload) (k : Str) :
    GoMap.get (convertToLogrusFields jp) k = GoMap.get jp k := by
  have h := get_overlay [] jp k
  unfold overlay at h
  unfold convertToLogrusFields
  rw [h, GoMap.get_nil, Option.or_none]

/-! ## Facts about query escaping -/

theorem hexByte_upperhex : ∀ c : Byte,
    hexByte (upperhex (c.val / 16)) (upperhex (c.val % 16)) = c := by decide

theorem ishex_upperhex : ∀ c : Byte,
    ishex (upperhex (c.val / 16)) = true ∧ ishex (upperhex (c.val % 16)) = true := by decide

theorem upperhex_not_delim : ∀ c : Byte,
    upperhex (c.val / 16) ∉ queryDelims ∧ upperhex (c.val % 16) ∉ queryDelims := by decide

theorem unescaped_not_delim : ∀ c : Byte,
    shouldEscape c .encodeQueryComponent = false → c ∉ queryDelims := by decide

theorem unescapeValid_QueryEscape (s : Str) :
    unescapeValid (QueryEscape s) .encodeQueryComponent = true := by
  unfold QueryEscape
  induction s with
  | nil => rfl
  | cons c s ih =>
    unfold escape
    by_cases hc : shouldEscape c .encodeQueryComponent = true
    · rw [if_pos hc]
      by_cases hs : c = ch ' ' ∧ encoding.encodeQueryComponent = encoding.encodeQueryComponent
      · rw [if_pos hs]
        unfold unescapeValid
        simpa [show ch '+' ≠ ch '%' by decide] using ih
      · rw [if_neg hs]
        unfold unescapeValid
        have hh := ishex_upperhex c
        simp [hh.1, hh.2, ih]
    · rw [if_neg hc]
      have hd := unescaped_not_delim c (by simpa using hc)
      have h1 : c ≠ ch '%' := fun h => hd (by rw [h]; decide)
      unfold unescapeValid
      simp [h1, ih]

theorem unescapeDecode_QueryEscape (s : Str) :
    unescapeDecode (QueryEscape s) .encodeQueryComponent = s := by
  unfold QueryEscape
  induction s with
  | nil => rfl
  | cons c s ih =>
    unfold escape
    by_cases hc : shouldEscape c .encodeQueryComponent = true
    · rw [if_pos hc]
      by_cases hs : c = ch ' ' ∧ encoding.encodeQueryComponent = encoding.encodeQueryComponent
      · rw [if_pos hs]
        unfold unescapeDecode
        simp [show ch '+' ≠ ch '%' by decide, ih, hs.1]
      · rw [if_neg hs]
        unfold unescapeDecode
        simp [hexByte_upperhex c, ih]
    · rw [if_neg hc]
      have hd := unescaped_not_delim c (by simpa using hc)
      have h1 : c ≠ ch '%' := fun h => hd (by rw [h]; decide)
      have h2 : c ≠ ch '+' := fun h => hd (by rw [h]; decide)
      unfold unescapeDecode
      simp [h1, h2, ih]

theorem QueryUnescape_QueryEscape (s : Str) : QueryUnescape (QueryEscape s) = some s := by
  unfold QueryUnescape unescape
  rw [unescapeValid_QueryEscape, unescapeDecode_QueryEscape]
  rfl

theorem QueryEscape_no_delim (s : Str) (d : Byte) (hd : d ∈ str "&=;#")
    : d ∉ QueryEscape s := by
  have hd1 : d ∈ queryDelims := by
    revert hd; revert d; decide
  have hd2 : d ≠ ch '%' ∧ d ≠ ch '+' := by
    revert hd; revert d; decide
  unfold QueryEscape
  induction s with
  | nil => simp [escape]
  | cons c s ih =>
    unfold escape
    by_cases hc : shouldEscape c .encodeQueryComponent = true
    · rw [if_pos hc]
      by_cases hs : c = ch ' ' ∧ encoding.encodeQueryComponent = encoding.encodeQueryComponent
      · rw [if_pos hs]
        simp only [List.mem_cons, not_or]
        exact ⟨hd2.2, ih⟩
      · rw [if_neg hs]
        have hu := upperhex_not_delim c
        simp only [List.mem_cons, not_or]
        exact ⟨hd2.1, fun h => hu.1 (h ▸ hd1), fun h => hu.2 (h ▸ hd1), ih⟩
    · rw [if_neg hc]
      have hx := unescaped_not_delim c (by simpa using hc)
      simp only [List.mem_cons, not_or]
      exact ⟨fun h => hx (h ▸ hd1), ih⟩

theorem Cut_append (sep : Byte) (a b : Str) (h : sep ∉ a) :
    Cut sep (a ++ sep :: b) = (a, b, true) := by
  induction a with
  | nil => simp [Cut]
  | cons c a ih =>
    have hc : c ≠ sep := fun hh => h (by simp [hh])
    have ha : sep ∉ a := fun hh => h (List.mem_cons_of_mem _ hh)
    simp [Cut, hc, ih ha]

/-! ## Facts about parsing an encoded query -/

/-- The escaped text `key=value` of one pair. -/
theorem parseQueryStep_pair (m : Values) (p : Str × Str) :
    parseQueryStep m (QueryEscape p.1 ++ ch '=' :: QueryEscape p.2) =
      GoMap.set m p.1 (Values.index m p.1 ++ [p.2]) := by
  have h1 : ch ';' ∉ QueryEscape p.1 ++ ch '=' :: QueryEscape p.2 := by
    simp only [List.mem_append, List.mem_cons, not_or]
    exact ⟨QueryEscape_no_delim _ _ (by decide), by decide, QueryEscape_no_delim _ _ (by decide)⟩
  have h2 : QueryEscape p.1 ++ ch '=' :: QueryEscape p.2 ≠ [] := by simp
  have h3 := Cut_append (ch '=') (QueryEscape p.1) (QueryEscape p.2)
    (QueryEscape_no_delim _ _ (by decide))
  unfold parseQueryStep
  rw [if_neg h1, if_neg h2, h3]
  simp only [QueryUnescape_QueryEscape]

theorem parseQueryStep_nil (m : Values) : parseQueryStep m [] = m := by
  unfold parseQueryStep
  simp

theorem parseQuery_Encode (v : Values) :
    parseQuery [] (Values.Encode v) =
      (Values.pairs v).foldl (fun m p => GoMap.set m p.1 (Values.index m p.1 ++ [p.2])) [] := by
  unfold parseQuery Values.Encode
  generalize Values.pairs v = ps
  by_cases hp : ps = []
  · subst hp
    simp [List.intercalate, List.splitOn, List.splitOnP, List.splitOnP.go, parseQueryStep_nil]
  · rw [List.splitOn_intercalate]
    · rw [List.foldl_map]
      congr 1
      funext m p
      exact parseQueryStep_pair m p
    · intro l hl
      obtain ⟨p, _, rfl⟩ := List.mem_map.1 hl
      simp only [List.mem_append, List.mem_cons, not_or]
      exact ⟨QueryEscape_no_delim _ _ (by decide), by decide,
        QueryEscape_no_delim _ _ (by decide)⟩
    · simpa using hp

theorem index_set (m : Values) (k : Str) (vs : List Str) (k2 : Str) :
    Values.index (GoMap.set m k vs) k2 = if k2 = k then vs else Values.index m k2 := by
  unfold Values.index
  rw [GoMap.get_set]
  by_cases h : k2 = k <;> simp [h]

theorem index_foldl_add (ps : List (Str × Str)) (m : Values) (k : Str) :
    Values.index
        (ps.foldl (fun m p => GoMap.set m p.1 (Values.index m p.1 ++ [p.2])) m) k =
      Values.index m k ++ (ps.filter (fun p => decide (p.1 = k))).map Prod.snd := by
  induction ps generalizing m with
  | nil => simp
  | cons p ps ih =>
    rw [List.foldl_cons, ih, index_set]
    by_cases h : p.1 = k
    · subst h
      simp [List.filter_cons]
    · have h2 : ¬ k = p.1 := fun hh => h hh.symm
      simp [List.filter_cons, h, h2]

theorem Has_set (m : Values) (k : Str) (vs : List Str) (k2 : Str) :
    Values.Has (GoMap.set m k vs) k2 = (decide (k2 = k) || Values.Has m k2) := by
  unfold Values.Has
  rw [GoMap.get_set]
  by_cases h : k2 = k <;> simp [h]

theorem Has_foldl_add (ps : List (Str × Str)) (m : Values) (k : Str) :
    Values.Has
        (ps.foldl (fun m p => GoMap.set m p.1 (Values.index m p.1 ++ [p.2])) m) k =
      (Values.Has m k || decide (k ∈ ps.map Prod.fst)) := by
  induction ps generalizing m with
  | nil => simp
  | cons p ps ih =>
    rw [List.foldl_cons, ih, Has_set]
    by_cases h : k = p.1
    · simp [h]
    · have hb : (k == p.1) = false := by simpa using h
      simp [h, hb]

theorem flatMap_single {β : Type} (l : List Str) (k : Str) (g : Str → List β)
    (hn : l.Nodup) :
    (l.flatMap (fun a => if a = k then g a else [])) = if k ∈ l then g k else [] := by
  induction l with
  | nil => simp
  | cons a l ih =>
    rw [List.nodup_cons] at hn
    rw [List.flatMap_cons, ih hn.2]
    by_cases h : a = k
    · subst h
      simp [hn.1]
    · have h2 : ¬ k = a := fun hh => h hh.symm
      simp [h, h2]

theorem sortStrings_nodup (l : List Str) (h : l.Nodup) : (sortStrings l).Nodup :=
  (List.perm_insertionSort _ l).nodup_iff.2 h

theorem mem_sortStrings (l : List Str) (k : Str) : k ∈ sortStrings l ↔ k ∈ l :=
  (List.perm_insertionSort _ l).mem_iff

theorem pairs_filter (v : Values) (k : Str) :
    (Values.pairs v).filter (fun p => decide (p.1 = k)) =
      (Values.index v k).map (fun x => (k, x)) := by
  unfold Values.pairs
  rw [List.filter_flatMap]
  have hf : (fun a => List.filter (fun p => decide (p.1 = k))
        ((Values.index v a).map (fun x => (a, x)))) =
      (fun a => if a = k then (Values.index v a).map (fun x => (a, x)) else []) := by
    funext a
    by_cases h : a = k
    · rw [if_pos h, List.filter_eq_self]
      intro p hp
      obtain ⟨x, _, rfl⟩ := List.mem_map.1 hp
      simpa using h
    · rw [if_neg h, List.filter_eq_nil_iff]
      intro p hp
      obtain ⟨x, _, rfl⟩ := List.mem_map.1 hp
      simpa using h
  rw [hf, flatMap_single _ _ _ (sortStrings_nodup _ (GoMap.keys_nodup v))]
  by_cases h : GoMap.get v k = none
  · have hk : k ∉ sortStrings (GoMap.keys v) := by
      rw [mem_sortStrings, GoMap.mem_keys]; simpa using h
    rw [if_neg hk]
    simp [Values.index, h]
  · have hk : k ∈ sortStrings (GoMap.keys v) := by
      rw [mem_sortStrings, GoMap.mem_keys]; exact h
    rw [if_pos hk]

theorem index_parseQuery_Encode (v : Values) (k : Str) :
    Values.index (parseQuery [] (Values.Encode v)) k = Values.index v k := by
  rw [parseQuery_Encode, index_foldl_add, pairs_filter]
  simp [Values.index, GoMap.get_nil, Function.comp_def]

theorem Has_parseQuery_Encode (v : Values) (k : Str) :
    Values.Has (parseQuery [] (Values.Encode v)) k = decide (Values.index v k ≠ []) := by
  rw [parseQuery_Encode, Has_foldl_add]
  have h1 : Values.Has ([] : Values) k = false := rfl
  rw [h1, Bool.false_or]
  have h2 : (k ∈ (Values.pairs v).map Prod.fst) ↔ Values.index v k ≠ [] := by
    constructor
    · intro h
      obtain ⟨p, hp, hk⟩ := List.mem_map.1 h
      have hm : p ∈ (Values.pairs v).filter (fun p => decide (p.1 = k)) := by
        rw [List.mem_filter]; exact ⟨hp, by simpa using hk⟩
      rw [pairs_filter] at hm
      intro hnil
      rw [hnil] at hm
      simp at hm
    · intro h
      obtain ⟨x, hx⟩ := List.exists_mem_of_ne_nil _ h
      have hm : (k, x) ∈ (Values.pairs v).filter (fun p => decide (p.1 = k)) := by
        rw [pairs_filter]; exact List.mem_map.2 ⟨x, hx, rfl⟩
      exact List.mem_map.2 ⟨(k, x), (List.mem_filter.1 hm).1, rfl⟩
  simp only [h2]

theorem index_Del (v : Values) (key k : Str) :
    Values.index (Values.Del v key) k = if k = key then [] else Values.index v k := by
  unfold Values.index Values.Del
  rw [GoMap.get_delete]
  by_cases h : k = key <;> simp [h]

/-! ## Facts about parsed queries -/

theorem noEmptyValues_step (m : Values) (piece : Str) (h : noEmptyValues m) :
    noEmptyValues (parseQueryStep m piece) := by
  unfold parseQueryStep
  split_ifs
  · exact h
  · exact h
  · split
    · exact h
    · split
      · exact h
      · intro k
        rw [GoMap.get_set]
        split_ifs
        · simp
        · exact h k

theorem noEmptyValues_parseQuery (q : Str) : noEmptyValues (parseQuery [] q) := by
  unfold parseQuery
  have key : ∀ (l : List Str) (m : Values), noEmptyValues m →
      noEmptyValues (l.foldl parseQueryStep m) := by
    intro l
    induction l with
    | nil => intro m h; exact h
    | cons a l ih => intro m h; exact ih _ (noEmptyValues_step m a h)
  exact key _ _ (fun k => by simp [GoMap.get_nil])

theorem Has_eq_index_ne_nil (m : Values) (h : noEmptyValues m) (k : Str) :
    Values.Has m k = decide (Values.index m k ≠ []) := by
  unfold Values.Has Values.index
  have hk := h k
  cases hg : GoMap.get m k with
  | none => simp
  | some vs =>
    rw [hg] at hk
    have : vs ≠ [] := fun hh => hk (by rw [hh])
    simp [this]

theorem Has_Query_strip (u : URL) (key k : Str) :
    Values.Has (stripQueryParam u key).2.Query k =
      (decide (k ≠ key) && Values.Has u.Query k) := by
  show Values.Has (parseQuery [] (Values.Encode (Values.Del u.Query key))) k = _
  rw [Has_parseQuery_Encode, index_Del]
  have h2 : Values.Has u.Query k = decide (Values.index u.Query k ≠ []) :=
    Has_eq_index_ne_nil _ (noEmptyValues_parseQuery _) k
  rw [h2]
  by_cases h : k = key <;> simp [h]

theorem index_Query_strip (u : URL) (key k : Str) :
    Values.index (stripQueryParam u key).2.Query k =
      if k = key then [] else Values.index u.Query k := by
  show Values.index (parseQuery [] (Values.Encode (Values.Del u.Query key))) k = _
  rw [index_parseQuery_Encode, index_Del]

/-! ## Facts about the text of a URL -/

theorem Cut_not_mem (sep : Byte) (a : Str) (h : sep ∉ a) : Cut sep a = (a, [], false) := by
  induction a with
  | nil => simp [Cut]
  | cons c a ih =>
    have hc : c ≠ sep := fun hh => h (by simp [hh])
    have ha : sep ∉ a := fun hh => h (List.mem_cons_of_mem _ hh)
    simp [Cut, hc, ih ha]

theorem mark_ne : ∀ d : Byte, d ∈ str "?#" →
    d ≠ ch ':' ∧ d ≠ ch '/' ∧ d ≠ ch '@' ∧ d ≠ ch '%' ∧
      d ∉ str "//" ∧ d ∉ str "./" ∧ d ∉ str "*" := by decide

theorem unescaped_head_byte : ∀ c : Byte,
    (shouldEscape c .encodeHost = false ∨ shouldEscape c .encodeUserPassword = false ∨
      shouldEscape c .encodePath = false) → c ∉ str "?#" := by decide

theorem upperhex_not_mark : ∀ c : Byte,
    upperhex (c.val / 16) ∉ str "?#" ∧ upperhex (c.val % 16) ∉ str "?#" := by decide

theorem validEncoded_byte : ∀ c : Byte,
    (c ∈ ([33, 36, 38, 39, 40, 41, 42, 43, 44, 59, 61, 58, 64] : Str) ||
      c == ch '[' || c == ch ']' || c == ch '%' || !shouldEscape c .encodePath) = true →
    c ∉ str "?#" := by decide

theorem escape_no_mark (s : Str) (mode : encoding) (d : Byte) (hd : d ∈ str "?#")
    (hm : mode = .encodeHost ∨ mode = .encodeUserPassword ∨ mode = .encodePath) :
    d ∉ escape s mode := by
  have hq : mode ≠ .encodeQueryComponent := by
    rcases hm with h | h | h <;> rw [h] <;> decide
  have hd2 : d ≠ ch '%' := (mark_ne d hd).2.2.2.1
  induction s with
  | nil => simp [escape]
  | cons c s ih =>
    unfold escape
    by_cases hc : shouldEscape c mode = true
    · rw [if_pos hc, if_neg (fun h => hq h.2)]
      have hu := upperhex_not_mark c
      simp only [List.mem_cons, not_or]
      exact ⟨hd2, fun h => hu.1 (h ▸ hd), fun h => hu.2 (h ▸ hd), ih⟩
    · rw [if_neg hc]
      have hf : shouldEscape c mode = false := by simpa using hc
      have hx : c ∉ str "?#" := by
        apply unescaped_head_byte
        rcases hm with h | h | h
        · left; rw [← h]; exact hf
        · right; left; rw [← h]; exact hf
        · right; right; rw [← h]; exact hf
      simp only [List.mem_cons, not_or]
      exact ⟨fun h => hx (h ▸ hd), ih⟩

theorem validEncoded_no_mark (s : Str) (d : Byte) (hd : d ∈ str "?#")
    (hv : validEncoded s .encodePath = true) : d ∉ s := by
  unfold validEncoded at hv
  rw [List.all_eq_true] at hv
  intro hmem
  exact validEncoded_byte d (hv d hmem) hd

theorem EscapedPath_no_mark (u : URL) (d : Byte) (hd : d ∈ str "?#") :
    d ∉ u.EscapedPath := by
  unfold URL.EscapedPath
  split_ifs with h1 h2
  · exact validEncoded_no_mark _ _ hd h1.2.1
  · exact (mark_ne d hd).2.2.2.2.2.2
  · exact escape_no_mark _ _ _ hd (Or.inr (Or.inr rfl))

theorem Userinfo_no_mark (ui : Userinfo) (d : Byte) (hd : d ∈ str "?#") :
    d ∉ ui.String := by
  have hc : d ≠ ch ':' := (mark_ne d hd).1
  unfold Userinfo.String
  have h1 := escape_no_mark ui.username .encodeUserPassword d hd (Or.inr (Or.inl rfl))
  have h2 := escape_no_mark ui.password .encodeUserPassword d hd (Or.inr (Or.inl rfl))
  split_ifs <;> simp [h1, h2, hc]

theorem head_no_mark (u : URL) (hu : u.plainHead) (d : Byte) (hd : d ∈ str "?#") :
    d ∉ u.head := by
  have hs := (hu d hd).1
  have ho := (hu d hd).2
  have hp := EscapedPath_no_mark u d hd
  have hh := escape_no_mark u.Host .encodeHost d hd (Or.inl rfl)
  have hl := mark_ne d hd
  have h2 : d ∉ str "//" ∧ d ∉ str "./" := ⟨hl.2.2.2.2.1, hl.2.2.2.2.2.1⟩
  unfold URL.head
  simp only
  split_ifs <;> (try cases hU : u.User) <;>
    simp [hs, ho, hp, hh, hl.1, hl.2.1, hl.2.2.1, h2.1, h2.2, Userinfo_no_mark _ d hd]

theorem mem_intercalate (sep : Str) (ls : List Str) (d : Byte)
    (h : d ∈ sep.intercalate ls) : d ∈ sep ∨ ∃ l ∈ ls, d ∈ l := by
  unfold List.intercalate at h
  rw [List.mem_flatten] at h
  obtain ⟨l, hl, hd⟩ := h
  induction ls with
  | nil => simp at hl
  | cons a ls ih =>
    cases ls with
    | nil =>
      simp at hl
      exact Or.inr ⟨a, by simp, hl ▸ hd⟩
    | cons b ls =>
      rw [List.intersperse_cons_cons] at hl
      rcases List.mem_cons.1 hl with h1 | h1
      · exact Or.inr ⟨a, by simp, h1 ▸ hd⟩
      · rcases List.mem_cons.1 h1 with h2 | h2
        · exact Or.inl (h2 ▸ hd)
        · rcases ih h2 with h3 | ⟨l2, hl2, hd2⟩
          · exact Or.inl h3
          · exact Or.inr ⟨l2, List.mem_cons_of_mem _ hl2, hd2⟩

theorem Encode_no_hash (v : Values) : ch '#' ∉ Values.Encode v := by
  intro h
  unfold Values.Encode at h
  rcases mem_intercalate _ _ _ h with h1 | ⟨l, hl, hd⟩
  · revert h1; decide
  · obtain ⟨p, _, rfl⟩ := List.mem_map.1 hl
    simp only [List.mem_append, List.mem_cons] at hd
    rcases hd with h1 | h1 | h1
    · exact QueryEscape_no_delim _ _ (by decide) h1
    · revert h1; decide
    · exact QueryEscape_no_delim _ _ (by decide) h1

theorem rawQueryOf_String (u : URL) (hu : u.plainHead) (hq : ch '#' ∉ u.RawQuery) :
    rawQueryOf u.String = u.RawQuery := by
  have h1 : ch '?' ∉ u.head := head_no_mark u hu _ (by decide)
  have h2 : ch '#' ∉ u.head := head_no_mark u hu _ (by decide)
  have hcut : (Cut (ch '#') u.String).1 =
      u.head ++ (if u.ForceQuery = true ∨ u.RawQuery ≠ [] then ch '?' :: u.RawQuery else []) := by
    have hfront : ch '#' ∉
        u.head ++ (if u.ForceQuery = true ∨ u.RawQuery ≠ [] then ch '?' :: u.RawQuery else []) := by
      have hne : ch '#' ≠ ch '?' := by decide
      split_ifs <;> simp [h2, hq, hne]
    unfold URL.String
    by_cases hf : u.Fragment ≠ []
    · rw [if_pos hf, Cut_append _ _ _ hfront]
    · rw [if_neg hf, List.append_nil, Cut_not_mem _ _ hfront]
  unfold rawQueryOf
  rw [hcut]
  by_cases hc : u.ForceQuery = true ∨ u.RawQuery ≠ []
  · rw [if_pos hc, Cut_append _ _ _ h1]
  · rw [if_neg hc, List.append_nil, Cut_not_mem _ _ h1]
    simp only [not_or, not_not] at hc
    exact hc.2.symm

/-! ## The stored URL (C1, C2, C10) -/

/-- C1, refuted as stated: the URL value with scheme `mailto`, opaque part
`joe@x.com?key=secret` and raw query `a=1` has no parameter named `key` in its
query, yet `NewRequestLogger` stores the string
`mailto:joe@x.com?key=secret?a=1`, whose query, when parsed, has the parameter
`key`.  And `https://x/y?a=1;b=2&c=%zz&d=4&key=s` is stored as
`https://x/y?d=4`: the pairs that `URL.Query` rejects are not kept. -/
theorem stored_url_of_opaque_keeps_key :
    Values.Has opaqueURL.Query (str "key") = false ∧
    (stripQueryParam opaqueURL (str "key")).1 = str "mailto:joe@x.com?key=secret?a=1" ∧
    Values.Has (parseQuery [] (rawQueryOf (stripQueryParam opaqueURL (str "key")).1))
      (str "key") = true ∧
    (∃ rl rf, exampleLogger.NewRequestLogger
        { Request := some { exampleRequest with URL := some opaqueURL }, Status := 200 } =
          .ok (rl, rf) ∧
      Values.Has (parseQuery [] (rawQueryOf rl.url)) (str "key") = true) ∧
    (stripQueryParam malformedQueryURL (str "key")).1 = str "https://x/y?d=4" :=
  ⟨by decide, by decide, by decide, ⟨_, _, rfl, by decide⟩, by decide⟩

/-- C1, amended: for every URL whose scheme and opaque part hold neither `?`
nor `#`, the string `NewRequestLogger` stores, `stripQueryParam u "key"`, has,
when its query is parsed, no parameter named `key`, and every other parameter
that `URL.Query` parses from the original URL is present in it, exactly when
it was in the original query, with the same values in the same order. -/
theorem stored_url_strips_key (u : URL) (hu : u.plainHead) :
    Values.Has (parseQuery [] (rawQueryOf (stripQueryParam u (str "key")).1))
      (str "key") = false ∧
    Values.index (parseQuery [] (rawQueryOf (stripQueryParam u (str "key")).1))
      (str "key") = [] ∧
    (∀ k, k ≠ str "key" →
      Values.Has (parseQuery [] (rawQueryOf (stripQueryParam u (str "key")).1)) k =
        Values.Has u.Query k ∧
      Values.index (parseQuery [] (rawQueryOf (stripQueryParam u (str "key")).1)) k =
        Values.index u.Query k) ∧
    (∀ (l : Logger) (req : Request) (status : Int), req.URL = some u →
      ∃ rl rf, l.NewRequestLogger { Request := some req, Status := status } = .ok (rl, rf) ∧
        rl.url = (stripQueryParam u (str "key")).1) := by
  have hq : parseQuery [] (rawQueryOf (stripQueryParam u (str "key")).1) =
      (stripQueryParam u (str "key")).2.Query := by
    have hr : rawQueryOf (stripQueryParam u (str "key")).1 =
        (stripQueryParam u (str "key")).2.RawQuery :=
      rawQueryOf_String _ hu (Encode_no_hash _)
    rw [hr]
    rfl
  rw [hq]
  refine ⟨?_, ?_, ?_, ?_⟩
  · rw [Has_Query_strip]; simp
  · rw [index_Query_strip]; simp
  · intro k hk
    rw [Has_Query_strip, index_Query_strip]
    simp [hk]
  · intro l req status hreq
    have hc : l.NewRequestLogger { Request := some req, Status := status } =
        .ok ({ method := req.Method, url := (stripQueryParam u (str "key")).1,
               userAgent := req.UserAgent, remoteIP := req.RemoteAddr, status := status,
               protocol := req.Proto, logger := l },
             { Request := some { req with URL := some (stripQueryParam u (str "key")).2 },
               Status := status }) := by
      simp only [Logger.NewRequestLogger, hreq]
    exact ⟨_, _, hc, rfl⟩

/-- The witness of C1 as amended: `https://x/y?key=secret&a=1` is stored as
`https://x/y?a=1`, whose query `a=1` keeps the parameter `a` with its value `1`
and has no `key`. -/
theorem stored_url_strips_key_witness :
    exampleURL.plainHead ∧
    (stripQueryParam exampleURL (str "key")).1 = str "https://x/y?a=1" ∧
    rawQueryOf (stripQueryParam exampleURL (str "key")).1 = str "a=1" ∧
    Values.index exampleURL.Query (str "a") = [str "1"] ∧
    Values.index (parseQuery [] (rawQueryOf (stripQueryParam exampleURL (str "key")).1))
      (str "a") = Values.index exampleURL.Query (str "a") ∧
    Values.Has (parseQuery [] (rawQueryOf (stripQueryParam exampleURL (str "key")).1))
      (str "key") = false ∧
    (∃ rl rf, exampleLogger.NewRequestLogger
        { Request := some { exampleRequest with URL := some exampleURL }, Status := 200 } =
          .ok (rl, rf) ∧
        rl.url = (stripQueryParam exampleURL (str "key")).1) :=
  ⟨by unfold URL.plainHead; decide, by decide, by decide, by decide,
    ((stored_url_strips_key exampleURL (by unfold URL.plainHead; decide)).2.2.1
      (str "a") (by decide)).2,
    (stored_url_strips_key exampleURL (by unfold URL.plainHead; decide)).1,
    (stored_url_strips_key exampleURL (by unfold URL.plainHead; decide)).2.2.2 exampleLogger
      { exampleRequest with URL := some exampleURL } 200 rfl⟩

/-- C2, refuted as stated: the query of `https://x/y?b=2&a=1` has no parameter
named `key`, yet the stored string is `https://x/y?a=1&b=2`, not the original
one. -/
theorem strip_absent_key_changes_url :
    Values.Has unsortedURL.Query (str "key") = false ∧
    unsortedURL.String = str "https://x/y?b=2&a=1" ∧
    (stripQueryParam unsortedURL (str "key")).1 = str "https://x/y?a=1&b=2" ∧
    (stripQueryParam unsortedURL (str "key")).1 ≠ unsortedURL.String := by
  decide

/-- C2, amended: for every URL whose query has no parameter named `key`, the
stored string is the text of the URL with its raw query replaced by the
canonical encoding of its parsed query; every parameter keeps its values in
their order; and the stored string equals the original one when the raw query
already is that canonical encoding. -/
theorem strip_absent_key_reencodes (u : URL)
    (h : Values.Has u.Query (str "key") = false) :
    (stripQueryParam u (str "key")).1 =
      URL.String { u with RawQuery := Values.Encode u.Query } ∧
    (∀ k, Values.Has (stripQueryParam u (str "key")).2.Query k = Values.Has u.Query k ∧
      Values.index (stripQueryParam u (str "key")).2.Query k = Values.index u.Query k) ∧
    (Values.Encode u.Query = u.RawQuery → (stripQueryParam u (str "key")).1 = u.String) := by
  have hd : Values.Del u.Query (str "key") = u.Query := by
    apply GoMap.delete_of_get_none
    unfold Values.Has at h
    cases hg : GoMap.get u.Query (str "key") with
    | none => rfl
    | some v => rw [hg] at h; simp at h
  have hs : (stripQueryParam u (str "key")).1 =
      URL.String { u with RawQuery := Values.Encode u.Query } := by
    show URL.String { u with RawQuery := Values.Encode (Values.Del u.Query (str "key")) } = _
    rw [hd]
  refine ⟨hs, ?_, ?_⟩
  · intro k
    rw [Has_Query_strip, index_Query_strip]
    by_cases hk : k = str "key"
    · subst hk
      have hi : Values.index u.Query (str "key") = [] := by
        have := Has_eq_index_ne_nil _ (noEmptyValues_parseQuery u.RawQuery) (str "key")
        rw [URL.Query, h] at *
        simpa using this
      simp [h, hi]
    · simp [hk]
  · intro he
    rw [hs, he]

/-- The witness of C2 as amended: `https://x/y?a=1&b=2` has no `key`, its query
is in canonical form, and it is stored unchanged. -/
theorem strip_absent_key_reencodes_witness :
    Values.Has sortedURL.Query (str "key") = false ∧
    Values.Encode sortedURL.Query = sortedURL.RawQuery ∧
    (stripQueryParam sortedURL (str "key")).1 = sortedURL.String :=
  ⟨by decide, by decide,
    (strip_absent_key_reencodes sortedURL (by decide)).2.2 (by decide)⟩

/-- C10: for every request with a non-nil URL `u`, `NewRequestLogger` succeeds
and leaves the caller's request with the same fields and the same URL apart
from its raw query, which is now the canonical encoding of the parsed query
without `key`; the text of that URL is the URL the request logger stores. -/
theorem NewRequestLogger_rewrites_request_url (l : Logger) (req : Request) (u : URL)
    (status : Int) (hu : req.URL = some u) :
    ∃ rl, l.NewRequestLogger { Request := some req, Status := status } =
        .ok (rl,
          { Request := some { req with
              URL := some { u with
                RawQuery := Values.Encode (Values.Del u.Query (str "key")) } },
            Status := status }) ∧
      rl.url =
        URL.String { u with RawQuery := Values.Encode (Values.Del u.Query (str "key")) } := by
  have hc : l.NewRequestLogger { Request := some req, Status := status } =
      .ok ({ method := req.Method, url := (stripQueryParam u (str "key")).1,
             userAgent := req.UserAgent, remoteIP := req.RemoteAddr, status := status,
             protocol := req.Proto, logger := l },
           { Request := some { req with URL := some (stripQueryParam u (str "key")).2 },
             Status := status }) := by
    simp only [Logger.NewRequestLogger, hu]
  exact ⟨_, hc, rfl⟩

/-- The witness of C10: after the call for `GET /a?key=1&b=2` the request's URL
has the raw query `b=2`, and its text `/a?b=2` is the stored URL. -/
theorem NewRequestLogger_rewrites_request_url_witness :
    Values.Encode (Values.Del exampleRequestURL.Query (str "key")) = str "b=2" ∧
    URL.String { exampleRequestURL with RawQuery := str "b=2" } = str "/a?b=2" ∧
    ∃ rl, exampleLogger.NewRequestLogger { Request := some exampleRequest, Status := 200 } =
        .ok (rl,
          { Request := some { exampleRequest with
              URL := some { exampleRequestURL with
                RawQuery := Values.Encode (Values.Del exampleRequestURL.Query (str "key")) } },
            Status := 200 }) ∧
      rl.url = URL.String { exampleRequestURL with
        RawQuery := Values.Encode (Values.Del exampleRequestURL.Query (str "key")) } :=
  ⟨by decide, by decide,
    NewRequestLogger_rewrites_request_url exampleLogger exampleRequest exampleRequestURL 200 rfl⟩

/-! ## Construction (C3, C4) -/

/-- C3: for every configuration, `New` returns a logger exactly when the
logging level parses to one of the seven levels of the engine, and the error
of the parse otherwise; the level parses exactly when its lower-cased spelling
is one of the level names; the upper-case spelling `INFO` of the test
parses to the info level. -/
theorem New_succeeds_iff_level_parses (unicodeLower : Str → Str) (conf : Config) :
    ((∃ l, New unicodeLower conf = .ok l) ↔
      ∃ lvl, ParseLevel unicodeLower conf.LoggingLevel = .ok lvl) ∧
    ((∃ e, New unicodeLower conf = .error e) ↔
      ¬ ∃ lvl, ParseLevel unicodeLower conf.LoggingLevel = .ok lvl) ∧
    (∀ l, New unicodeLower conf = .ok l →
      ParseLevel unicodeLower conf.LoggingLevel = .ok l.Entry.Logger.Level ∧
      l.serviceContext = { serviceName := conf.ServiceName, version := conf.Version }) ∧
    ((∃ lvl, ParseLevel unicodeLower conf.LoggingLevel = .ok lvl) ↔
      ToLower unicodeLower conf.LoggingLevel ∈
        [str "trace", str "debug", str "info", str "warn", str "warning", str "error",
          str "fatal", str "panic"]) ∧
    (∃ l, New unicodeLower { conf with LoggingLevel := str "INFO" } = .ok l ∧
      l.Entry.Logger.Level = .InfoLevel) := by
  refine ⟨?_, ?_, ?_, ?_, ?_⟩
  · unfold New
    cases hp : ParseLevel unicodeLower conf.LoggingLevel with
    | error e => simp
    | ok lvl => simp
  · unfold New
    cases hp : ParseLevel unicodeLower conf.LoggingLevel with
    | error e => simp
    | ok lvl => simp
  · intro l hl
    unfold New at hl
    cases hp : ParseLevel unicodeLower conf.LoggingLevel with
    | error e => rw [hp] at hl; simp at hl
    | ok lvl =>
      rw [hp] at hl
      simp only [Except.ok.injEq] at hl
      subst hl
      exact ⟨rfl, rfl⟩
  · unfold ParseLevel
    simp only [List.mem_cons, List.mem_singleton, List.not_mem_nil, or_false]
    split_ifs with h1 h2 h3 h4 h5 h6 h7 <;> simp_all
  · exact ⟨_, rfl, rfl⟩

/-- The witness of C3: the configuration of the test, with level `INFO`, yields
the logger at the info level with service `test` and version `1.0.0`, and the
level `loud` yields the parse error. -/
theorem New_succeeds_iff_level_parses_witness :
    New id exampleConfig = .ok exampleLogger ∧
    ParseLevel id exampleConfig.LoggingLevel = .ok exampleLogger.Entry.Logger.Level ∧
    exampleLogger.serviceContext =
      { serviceName := exampleConfig.ServiceName, version := exampleConfig.Version } ∧
    New id { exampleConfig with LoggingLevel := str "loud" } = .error (str "loud") :=
  ⟨rfl, ((New_succeeds_iff_level_parses id exampleConfig).2.2.1 exampleLogger rfl).1,
    ((New_succeeds_iff_level_parses id exampleConfig).2.2.1 exampleLogger rfl).2, rfl⟩

/-- C4, refuted as stated: for a non-nil request whose `URL` is nil, the call
neither returns a request logger nor an error; it panics. -/
theorem NewRequestLogger_nil_url_panics :
    exampleLogger.NewRequestLogger { Request := some requestWithoutURL, Status := 200 } =
      Outcome.panic := rfl

/-- C4, amended: `NewRequestLogger` returns an error and no request logger
exactly when the request is nil, and for every non-nil request with a non-nil
URL it returns a request logger and no error. -/
theorem NewRequestLogger_error_iff_nil_request (l : Logger) (rf : HTTPRequestFields) :
    ((∃ e, l.NewRequestLogger rf = .error e) ↔ rf.Request = none) ∧
    (rf.Request = none →
      l.NewRequestLogger rf = .error { description := str "cannot log nil request" }) ∧
    (∀ req u, rf.Request = some req → req.URL = some u →
      ∃ rl rf2, l.NewRequestLogger rf = .ok (rl, rf2)) := by
  refine ⟨?_, ?_, ?_⟩
  · unfold Logger.NewRequestLogger
    cases hr : rf.Request with
    | none => simp
    | some req =>
      cases hu : req.URL with
      | none => simp [hu]
      | some u => simp [hu]
  · intro h
    unfold Logger.NewRequestLogger
    rw [h]
  · intro req u hr hu
    unfold Logger.NewRequestLogger
    rw [hr]
    simp only [hu]
    exact ⟨_, _, rfl⟩

/-- The witness of C4 as amended: a nil request is an error, and the request
`GET /a?key=1&b=2` yields a request logger. -/
theorem NewRequestLogger_error_iff_nil_request_witness :
    exampleLogger.NewRequestLogger { Request := none, Status := 200 } =
      .error { description := str "cannot log nil request" } ∧
    ∃ rl rf2, exampleLogger.NewRequestLogger
      { Request := some exampleRequest, Status := 200 } = .ok (rl, rf2) :=
  ⟨(NewRequestLogger_error_iff_nil_request exampleLogger
      { Request := none, Status := 200 }).2.1 rfl,
    (NewRequestLogger_error_iff_nil_request exampleLogger
      { Request := some exampleRequest, Status := 200 }).2.2
        exampleRequest exampleRequestURL rfl rfl⟩

/-! ## Logging (C5, C8, C9) -/

/-- C8: for every logger that `New` built from a configuration with service
name `N` and version `V`, every error `E` and every call stack `T`, the fields
`Logger.Error E` hands to the engine are `serviceContext`, which holds
`service: N` and `version: V`, `eventTime`, the current time, and `stack_trace`,
the description of `E`, a newline and `T`; there is no other key. -/
theorem Logger_Error_fields (unicodeLower : Str → Str) (conf : Config) (l : Logger)
    (E : GoError) (stack : Str) (now : Nat) (hNew : New unicodeLower conf = .ok l) :
    GoMap.get (l.Error (some E) stack now).fields (str "serviceContext") =
      some (.fields [(str "service", .string conf.ServiceName),
        (str "version", .string conf.Version)]) ∧
    GoMap.get (l.Error (some E) stack now).fields (str "eventTime") = some (.time now) ∧
    GoMap.get (l.Error (some E) stack now).fields (str "stack_trace") =
      some (.string (E.description ++ str "\n" ++ stack)) ∧
    (∀ k, k ∉ [str "serviceContext", str "eventTime", str "stack_trace"] →
      GoMap.get (l.Error (some E) stack now).fields k = none) ∧
    GoMap.keys (l.Error (some E) stack now).fields =
      [str "serviceContext", str "eventTime", str "stack_trace"] ∧
    E.description <+: E.description ++ str "\n" ++ stack := by
  have hs : l.serviceContext = { serviceName := conf.ServiceName, version := conf.Version } := by
    unfold New at hNew
    cases hp : ParseLevel unicodeLower conf.LoggingLevel with
    | error e => rw [hp] at hNew; simp at hNew
    | ok lvl =>
      rw [hp] at hNew
      simp only [Except.ok.injEq] at hNew
      subst hNew
      rfl
  refine ⟨?_, ?_, ?_, ?_, ?_, ?_⟩
  · simp only [Logger.Error, hs]
    rfl
  · rfl
  · rfl
  · intro k hk
    simp only [List.mem_cons, List.mem_singleton, List.not_mem_nil, not_or, or_false] at hk
    simp only [Logger.Error, GoMap.get_cons, GoMap.get_nil, hk.1, hk.2.1, hk.2.2, if_false]
  · simp only [Logger.Error, GoMap.keys, List.map_cons, List.map_nil]
    decide
  · rw [List.append_assoc]
    exact List.prefix_append _ _

/-- The witness of C8: the fields of the logger of the test. -/
theorem Logger_Error_fields_witness :
    New id exampleConfig = .ok exampleLogger ∧
    GoMap.get (exampleLogger.Error (some { description := str "oh no" }) (str "goroutine 1")
        0).fields (str "stack_trace") =
      some (.string (str "oh no" ++ str "\n" ++ str "goroutine 1")) :=
  ⟨rfl, (Logger_Error_fields id exampleConfig exampleLogger { description := str "oh no" }
    (str "goroutine 1") 0 rfl).2.2.1⟩

/-- C9: for every payload `P`, `convertToLogrusFields P` maps every key to
what `P` maps it to, so it has exactly the entries of `P`; and every entry of
`P` is an entry, with the same value, of the entry `Logger.JSONPayload P`
returns. -/
theorem convertToLogrusFields_copies_payload (jp : Payload) :
    (∀ k, GoMap.get (convertToLogrusFields jp) k = GoMap.get jp k) ∧
    (∀ (l : Logger) (k : Str) (v : Value), GoMap.get jp k = some v →
      GoMap.get (l.JSONPayload jp).Data k = some v) := by
  refine ⟨get_convertToLogrusFields jp, ?_⟩
  intro l k v h
  unfold Logger.JSONPayload Entry.WithFields
  simp only
  rw [get_overlay, get_convertToLogrusFields, h]
  rfl

/-- The witness of C9: the payload `x: 1` through `JSONPayload`. -/
theorem convertToLogrusFields_copies_payload_witness :
    GoMap.get examplePayload (str "x") = some (.int 1) ∧
    GoMap.get (exampleLogger.JSONPayload examplePayload).Data (str "x") = some (.int 1) :=
  ⟨rfl, (convertToLogrusFields_copies_payload examplePayload).2 exampleLogger (str "x")
    (.int 1) rfl⟩

/-! ## Request logging (C6, C7) -/

/-- C6: for every request logger that `NewRequestLogger` created from a request
`R` with URL `u` and status `S`, and every payload `P`, `InfoJSONPayload P`
hands the engine, at info severity with an empty message, the fields of `P`
laid over the single field `httpRequest`, whose value holds the six sub-fields
`requestMethod`, `requestUrl` (the URL with `key` stripped), `userAgent`,
`remoteIp`, `status` and `protocol`: every entry of `P` is a top-level field
with the same value, and `httpRequest` is the synthesized value unless `P`
has that key. -/
theorem InfoJSONPayload_fields (l : Logger) (req : Request) (u : URL) (status : Int)
    (rl : RequestLogger) (rf2 : HTTPRequestFields) (jp : Payload)
    (hu : req.URL = some u)
    (hrl : l.NewRequestLogger { Request := some req, Status := status } = .ok (rl, rf2)) :
    (rl.InfoJSONPayload jp).level = .InfoLevel ∧
    (rl.InfoJSONPayload jp).message = [] ∧
    (rl.InfoJSONPayload jp).entry = l.Entry ∧
    (∀ k, GoMap.get (rl.InfoJSONPayload jp).fields k =
      (GoMap.get jp k).or
        (GoMap.get [(str "httpRequest", Value.fields
          [ (str "requestMethod", .string req.Method),
            (str "requestUrl", .string (stripQueryParam u (str "key")).1),
            (str "userAgent", .string req.UserAgent),
            (str "remoteIp", .string req.RemoteAddr),
            (str "status", .int status),
            (str "protocol", .string req.Proto) ])] k)) ∧
    (∀ k v, GoMap.get jp k = some v → GoMap.get (rl.InfoJSONPayload jp).fields k = some v) ∧
    (GoMap.get jp (str "httpRequest") = none →
      GoMap.get (rl.InfoJSONPayload jp).fields (str "httpRequest") =
        some (Value.fields
          [ (str "requestMethod", .string req.Method),
            (str "requestUrl", .string (stripQueryParam u (str "key")).1),
            (str "userAgent", .string req.UserAgent),
            (str "remoteIp", .string req.RemoteAddr),
            (str "status", .int status),
            (str "protocol", .string req.Proto) ])) ∧
    (∀ k, k ≠ str "httpRequest" →
      GoMap.get (rl.InfoJSONPayload jp).fields k = GoMap.get jp k) := by
  have hrl2 : rl =
      { method := req.Method, url := (stripQueryParam u (str "key")).1,
        userAgent := req.UserAgent, remoteIP := req.RemoteAddr, status := status,
        protocol := req.Proto, logger := l } := by
    simp only [Logger.NewRequestLogger, hu, Outcome.ok.injEq, Prod.mk.injEq] at hrl
    exact hrl.1.symm
  subst hrl2
  have hall : ∀ k, GoMap.get (RequestLogger.InfoJSONPayload
      { method := req.Method, url := (stripQueryParam u (str "key")).1,
        userAgent := req.UserAgent, remoteIP := req.RemoteAddr, status := status,
        protocol := req.Proto, logger := l } jp).fields k =
      (GoMap.get jp k).or
        (GoMap.get [(str "httpRequest", Value.fields
          [ (str "requestMethod", .string req.Method),
            (str "requestUrl", .string (stripQueryParam u (str "key")).1),
            (str "userAgent", .string req.UserAgent),
            (str "remoteIp", .string req.RemoteAddr),
            (str "status", .int status),
            (str "protocol", .string req.Proto) ])] k) := by
    intro k
    simp only [RequestLogger.InfoJSONPayload]
    rw [get_overlay, get_convertToLogrusFields]
  refine ⟨rfl, rfl, rfl, hall, ?_, ?_, ?_⟩
  · intro k v hk
    rw [hall, hk]
    rfl
  · intro hk
    rw [hall, hk]
    rfl
  · intro k hk
    rw [hall, GoMap.get_cons, if_neg hk, GoMap.get_nil, Option.or_none]

/-- The witness of C6: for `GET /a?key=1&b=2` and the payload `x: 1`, the
top-level field `x` is 1 and `httpRequest.requestUrl` is `/a?b=2`. -/
theorem InfoJSONPayload_fields_witness :
    (stripQueryParam exampleRequestURL (str "key")).1 = str "/a?b=2" ∧
    ∃ rl rf2, exampleLogger.NewRequestLogger
        { Request := some exampleRequest, Status := 200 } = .ok (rl, rf2) ∧
      GoMap.get (rl.InfoJSONPayload examplePayload).fields (str "x") = some (.int 1) ∧
      GoMap.get (rl.InfoJSONPayload examplePayload).fields (str "httpRequest") =
        some (Value.fields
          [ (str "requestMethod", .string exampleRequest.Method),
            (str "requestUrl", .string (stripQueryParam exampleRequestURL (str "key")).1),
            (str "userAgent", .string exampleRequest.UserAgent),
            (str "remoteIp", .string exampleRequest.RemoteAddr),
            (str "status", .int 200),
            (str "protocol", .string exampleRequest.Proto) ]) :=
  ⟨by decide, _, _, rfl,
    (InfoJSONPayload_fields exampleLogger exampleRequest exampleRequestURL 200 _ _
      examplePayload rfl rfl).2.2.2.2.1 (str "x") (.int 1) rfl,
    (InfoJSONPayload_fields exampleLogger exampleRequest exampleRequestURL 200 _ _
      examplePayload rfl rfl).2.2.2.2.2.1 rfl⟩

/-- C7: for every request logger derived from a logger that `New` built with
service name `N` and version `V`, and every error `E`, `RequestLogger.Error E`
hands the engine, at error severity with the description of `E` as message,
the three fields of `Logger.Error E` with the same values, and exactly two
more, which `Logger.Error E` does not have: `context`, whose `httpRequest`
holds the five sub-fields `method`, `url`, `userAgent`, `responseStatusCode`
and `remoteIp` of the request snapshot, and `@type`, the fixed type URL. -/
theorem RequestLogger_Error_fields (unicodeLower : Str → Str) (conf : Config) (l : Logger)
    (req : Request) (u : URL) (status : Int) (rl : RequestLogger) (rf2 : HTTPRequestFields)
    (E : GoError) (stack : Str) (now : Nat)
    (hNew : New unicodeLower conf = .ok l)
    (hu : req.URL = some u)
    (hrl : l.NewRequestLogger { Request := some req, Status := status } = .ok (rl, rf2)) :
    (rl.Error (some E) stack now).level = .ErrorLevel ∧
    (rl.Error (some E) stack now).message = E.description ∧
    (rl.Error (some E) stack now).entry = l.Entry ∧
    (∀ k, k ≠ str "context" → k ≠ str "@type" →
      GoMap.get (rl.Error (some E) stack now).fields k =
        GoMap.get (l.Error (some E) stack now).fields k) ∧
    GoMap.get (l.Error (some E) stack now).fields (str "context") = none ∧
    GoMap.get (l.Error (some E) stack now).fields (str "@type") = none ∧
    GoMap.get (rl.Error (some E) stack now).fields (str "serviceContext") =
      some (.fields [(str "service", .string conf.ServiceName),
        (str "version", .string conf.Version)]) ∧
    GoMap.get (rl.Error (some E) stack now).fields (str "eventTime") = some (.time now) ∧
    GoMap.get (rl.Error (some E) stack now).fields (str "stack_trace") =
      some (.string (E.description ++ str "\n" ++ stack)) ∧
    GoMap.get (rl.Error (some E) stack now).fields (str "context") =
      some (.fields [(str "httpRequest", .fields
        [ (str "method", .string req.Method),
          (str "url", .string (stripQueryParam u (str "key")).1),
          (str "userAgent", .string req.UserAgent),
          (str "responseStatusCode", .int status),
          (str "remoteIp", .string req.RemoteAddr) ])]) ∧
    GoMap.get (rl.Error (some E) stack now).fields (str "@type") =
      some (.string (str
        "type.googleapis.com/google.devtools.clouderrorreporting.v1beta1.ReportedErrorEvent")) ∧
    GoMap.keys (rl.Error (some E) stack now).fields =
      [str "serviceContext", str "context", str "eventTime", str "stack_trace",
        str "@type"] := by
  have hrl2 : rl =
      { method := req.Method, url := (stripQueryParam u (str "key")).1,
        userAgent := req.UserAgent, remoteIP := req.RemoteAddr, status := status,
        protocol := req.Proto, logger := l } := by
    simp only [Logger.NewRequestLogger, hu, Outcome.ok.injEq, Prod.mk.injEq] at hrl
    exact hrl.1.symm
  subst hrl2
  have hs : l.serviceContext = { serviceName := conf.ServiceName, version := conf.Version } := by
    unfold New at hNew
    cases hp : ParseLevel unicodeLower conf.LoggingLevel with
    | error e => rw [hp] at hNew; simp at hNew
    | ok lvl =>
      rw [hp] at hNew
      simp only [Except.ok.injEq] at hNew
      subst hNew
      rfl
  refine ⟨rfl, rfl, rfl, ?_, rfl, rfl, ?_, rfl, rfl, rfl, rfl, ?_⟩
  · intro k hk1 hk2
    simp only [RequestLogger.Error, Logger.Error, GoMap.get_cons, GoMap.get_nil, hk1, hk2,
      if_false]
  · simp only [RequestLogger.Error, hs]
    rfl
  · simp only [RequestLogger.Error, GoMap.keys, List.map_cons, List.map_nil]
    decide

/-- The witness of C7: the request logger for `GET /a?key=1&b=2` derived from
the logger of the test. -/
theorem RequestLogger_Error_fields_witness :
    New id exampleConfig = .ok exampleLogger ∧
    ∃ rl rf2, exampleLogger.NewRequestLogger
        { Request := some exampleRequest, Status := 200 } = .ok (rl, rf2) ∧
      (rl.Error (some { description := str "oh no" }) (str "goroutine 1") 0).message =
        str "oh no" ∧
      GoMap.get (rl.Error (some { description := str "oh no" }) (str "goroutine 1") 0).fields
          (str "@type") =
        some (.string (str
          "type.googleapis.com/google.devtools.clouderrorreporting.v1beta1.ReportedErrorEvent")) :=
  ⟨rfl, _, _, rfl,
    (RequestLogger_Error_fields id exampleConfig exampleLogger exampleRequest exampleRequestURL
      200 _ _ { description := str "oh no" } (str "goroutine 1") 0 rfl rfl rfl).2.1,
    (RequestLogger_Error_fields id exampleConfig exampleLogger exampleRequest exampleRequestURL
      200 _ _ { description := str "oh no" } (str "goroutine 1") 0 rfl rfl
      rfl).2.2.2.2.2.2.2.2.2.2.1⟩

end Sdl
